import Mathlib

/-!
Verification development for the Pulse Analytics Discord collector
(src/index.js). The definitions below are a shallow embedding of the
event handlers of that file; timestamps are modelled as milliseconds
(Nat), and each call of the form `new Date()` whose value reaches the
voice-session logic is made an explicit parameter, so that the clock
reading order of the source is preserved.
-/

/-- A voice channel as seen by the handlers: id and display name. -/
structure Chan where
  id : String
  name : String
deriving DecidableEq

/-- An open voice session, the value type of the `voiceSessions` map
(src/index.js line 300): `startedAt`, `channelId`, `channelName`. -/
structure VoiceSession where
  startedAt : Nat
  channelId : String
  channelName : String
deriving DecidableEq

/-- A closed voice-session record, the row inserted into
`voice_sessions` (src/index.js lines 318-328 and 361-371). -/
structure VoiceRecord where
  serverId : String
  memberId : String
  channelId : String
  channelName : String
  startedAt : Nat
  endedAt : Nat
  durationMinutes : Int
deriving DecidableEq

/-- The in-memory `voiceSessions` Map, modelled extensionally as an
association list of (string key, session) pairs in insertion order. -/
abbrev VTable := List (String × VoiceSession)

/-- `Map.get`: the value of the first (hence only) entry with the key. -/
def mapGet (m : VTable) (k : String) : Option VoiceSession :=
  (m.find? (fun p => p.1 == k)).map (fun p => p.2)

/-- `Map.set`: replace the value in place (keeping insertion order)
when the key is present, append a fresh entry otherwise. -/
def mapSet (m : VTable) (k : String) (v : VoiceSession) : VTable :=
  match m with
  | [] => [(k, v)]
  | p :: rest => if p.1 == k then (k, v) :: rest else p :: mapSet rest k v

/-- `Map.delete`: drop the entry with the key. -/
def mapDelete (m : VTable) (k : String) : VTable :=
  m.filter (fun p => !(p.1 == k))

/-- `Math.round(d / 60000)` on an exact integer millisecond difference
`d`: round half up, i.e. the floor of `(d + 30000) / 60000`. -/
def roundDiv60000 (d : Int) : Int :=
  Int.fdiv (d + 30000) 60000

/-- One `VoiceStateUpdate` event after field extraction
(src/index.js lines 289-295): whether a member object is available,
its bot flag, the guild and member ids, and the channel of the old and
of the new voice state. -/
structure VoiceEvent where
  hasMember : Bool
  isBot : Bool
  serverId : String
  memberId : String
  oldChannel : Option Chan
  newChannel : Option Chan
deriving DecidableEq

/-- The string key of the `voiceSessions` map:
`serverId + "-" + memberId` (src/index.js line 295). -/
def sessionKey (ev : VoiceEvent) : String :=
  ev.serverId ++ "-" ++ ev.memberId

/-- The `voice_sessions` row built when a session `s` is closed at
`endedAt` (src/index.js lines 314-315 and 358-359). -/
def mkRecord (ev : VoiceEvent) (s : VoiceSession) (endedAt : Nat) : VoiceRecord :=
  ⟨ev.serverId, ev.memberId, s.channelId, s.channelName, s.startedAt, endedAt,
    roundDiv60000 ((endedAt : Int) - (s.startedAt : Int))⟩

/-- The `VoiceStateUpdate` handler (src/index.js lines 289-387) as a
function from the table and the event to the emitted records and the
new table. `t1` is the value of the first `new Date()` reached in the
taken branch (line 301, 314 or 358); `t2` is the value of the second
one in the move branch (line 376), taken after the awaited insert. -/
def handleVoice (table : VTable) (ev : VoiceEvent) (t1 t2 : Nat) :
    List VoiceRecord × VTable :=
  if !ev.hasMember || ev.isBot then ([], table)
  else
    let key := sessionKey ev
    match ev.oldChannel, ev.newChannel with
    | none, some c =>
        ([], mapSet table key ⟨t1, c.id, c.name⟩)
    | some _, none =>
        match mapGet table key with
        | some s => ([mkRecord ev s t1], mapDelete table key)
        | none => ([], table)
    | some c, some d =>
        if c.id == d.id then ([], table)
        else
          let recs := match mapGet table key with
            | some s => [mkRecord ev s t1]
            | none => []
          (recs, mapSet table key ⟨t2, d.id, d.name⟩)
    | none, none => ([], table)

/-- A voice event together with the clock readings its handling
consumes: `t1` for the first `new Date()`, `t2` for the second. -/
structure TimedVoiceEvent where
  ev : VoiceEvent
  t1 : Nat
  t2 : Nat
deriving DecidableEq

/-- Replay a list of timed events through `handleVoice`, collecting
all emitted records and the final table. -/
def voiceReplay (table : VTable) : List TimedVoiceEvent → List VoiceRecord × VTable
  | [] => ([], table)
  | e :: rest =>
      let r := handleVoice table e.ev e.t1 e.t2
      let r2 := voiceReplay r.2 rest
      (r.1 ++ r2.1, r2.2)

/-- Does the observation pair of `ev` leave a channel: a leave
(`some`/`none`) or a move-out (`some c`/`some d` with distinct ids)? -/
def isLeaveOut (ev : VoiceEvent) : Bool :=
  match ev.oldChannel, ev.newChannel with
  | some _, none => true
  | some c, some d => !(c.id == d.id)
  | _, _ => false

/-- Number of leave + move-out observations in a replay. -/
def leaveCount (events : List TimedVoiceEvent) : Nat :=
  (events.filter (fun e => isLeaveOut e.ev)).length

/-- The event carries the fixed (server, member) identity and passes
the member/bot guard of the handler. -/
def goodKey (sid mid : String) (ev : VoiceEvent) : Bool :=
  ev.hasMember && !ev.isBot && (ev.serverId == sid) && (ev.memberId == mid)

/-- The events form a genuine single-member history: all for the
(sid, mid) key, and each event's before-channel equals the running
current channel, starting from `cur`. -/
def singleKeyChain (sid mid : String) (cur : Option Chan) : List TimedVoiceEvent → Bool
  | [] => true
  | e :: rest =>
      goodKey sid mid e.ev && decide (e.ev.oldChannel = cur) &&
        singleKeyChain sid mid e.ev.newChannel rest

/-- Modelled from the spec: the abstract per-key state of the section
4.2 transition table, `none` for Absent and `some (channel id, started
at)` for Occupied, stepped with the single `now` of the event. -/
def specVoiceStep (st : Option (String × Nat)) (before after : Option Chan)
    (now : Nat) : Option (String × Nat) :=
  match before, after with
  | none, some c => some (c.id, now)
  | some _, none => none
  | some c, some d => if c.id = d.id then st else some (d.id, now)
  | none, none => st

/-- Modelled from the spec: fold `specVoiceStep` over a replay, using
each event's first clock reading as its single `now`. -/
def specVoiceState (st : Option (String × Nat)) :
    List TimedVoiceEvent → Option (String × Nat)
  | [] => st
  | e :: rest =>
      specVoiceState (specVoiceStep st e.ev.oldChannel e.ev.newChannel e.t1) rest

/-- The clock readings of a replay are nondecreasing, starting no
earlier than `lo`. -/
def timesMonotone (lo : Nat) : List TimedVoiceEvent → Bool
  | [] => true
  | e :: rest =>
      Nat.ble lo e.t1 && Nat.ble e.t1 e.t2 && timesMonotone e.t2 rest

/-- An atomic operation of the voice handler, for reasoning about the
order of table accesses relative to suspending Sink calls: a table
read, a table write, a table delete, or an awaited Sink call. -/
inductive VOp where
  | tRead : VOp
  | tSet : VOp
  | tDelete : VOp
  | sink : String → VOp
deriving DecidableEq

/-- The sequence of table operations and awaited Sink calls performed
by the `VoiceStateUpdate` handler, in source order (src/index.js lines
289-387). `memberFound` stands for the result of the awaited member
lookup of lines 331-336 deciding whether the update of line 339 runs. -/
def voiceOpTrace (table : VTable) (ev : VoiceEvent) (memberFound : Bool) :
    List VOp :=
  if !ev.hasMember || ev.isBot then []
  else
    let key := sessionKey ev
    match ev.oldChannel, ev.newChannel with
    | none, some _ => [VOp.tSet]
    | some _, none =>
        match mapGet table key with
        | some _ =>
            [VOp.tRead, VOp.sink "insert voice_sessions", VOp.sink "select members"]
              ++ (if memberFound then [VOp.sink "update members"] else [])
              ++ [VOp.tDelete]
        | none => [VOp.tRead]
    | some c, some d =>
        if c.id == d.id then []
        else
          match mapGet table key with
          | some _ => [VOp.tRead, VOp.sink "insert voice_sessions", VOp.tSet]
          | none => [VOp.tRead, VOp.tSet]
    | none, none => []

/-- Scan helper: true iff no table mutation occurs at or after a
position once a Sink call has been seen (`seen`). -/
def noMutAfterSink : List VOp → Bool → Bool
  | [], _ => true
  | VOp.sink _ :: rest, _ => noMutAfterSink rest true
  | VOp.tSet :: rest, seen => if seen then false else noMutAfterSink rest seen
  | VOp.tDelete :: rest, seen => if seen then false else noMutAfterSink rest seen
  | VOp.tRead :: rest, seen => noMutAfterSink rest seen

/-- All table mutations of the trace happen before its first Sink
call. -/
def mutationsBeforeSinks (tr : List VOp) : Bool :=
  noMutAfterSink tr false

/-- Scan helper: true iff no table read occurs after a Sink call. -/
def noReadAfterSink : List VOp → Bool → Bool
  | [], _ => true
  | VOp.sink _ :: rest, _ => noReadAfterSink rest true
  | VOp.tRead :: rest, seen => if seen then false else noReadAfterSink rest seen
  | _ :: rest, seen => noReadAfterSink rest seen

/-- All table reads (the open/close decision) of the trace happen
before its first Sink call. -/
def readsBeforeSinks (tr : List VOp) : Bool :=
  noReadAfterSink tr false

/-- A platform user as the message handlers see it: id and bot flag. -/
structure User where
  id : String
  bot : Bool
deriving DecidableEq

/-- A `MessageCreate` event after field extraction (src/index.js
lines 105-118 and 192-206): bot flag of the author, guild presence,
ids, the mentioned users in order, and the optional reply reference
with its resolved replied-to user. -/
structure Message where
  authorBot : Bool
  inGuild : Bool
  serverId : String
  channelId : String
  authorId : String
  mentions : List User
  hasReplyRef : Bool
  repliedUser : Option User
deriving DecidableEq

/-- An interaction edge, the logical fact behind one `saveInteraction`
call that reaches the database (src/index.js lines 47-89). -/
structure InteractionEdge where
  serverId : String
  sourceId : String
  targetId : String
  kind : String
  channelId : String
deriving DecidableEq

/-- The non-bot mentioned users
(`message.mentions.users.filter(user => !user.bot)`, line 193). -/
def mentionTargets (m : Message) : List User :=
  m.mentions.filter (fun u => !u.bot)

/-- The interaction edges a message produces: one mention edge per
non-bot mentioned user that is not the author (the self guard is
`saveInteraction`'s early return, line 49), plus at most one reply
edge under the guard of line 202. -/
def interactionEdges (m : Message) : List InteractionEdge :=
  if m.authorBot || !m.inGuild then []
  else
    ((mentionTargets m).filterMap (fun u =>
      if m.authorId == u.id then none
      else some ⟨m.serverId, m.authorId, u.id, "mention", m.channelId⟩))
    ++ (if m.hasReplyRef then
          match m.repliedUser with
          | some ru =>
              if !ru.bot && !(ru.id == m.authorId) then
                [⟨m.serverId, m.authorId, ru.id, "reply", m.channelId⟩]
              else []
          | none => []
        else [])

/-- Which logical fact a database call belongs to. -/
inductive FactTag where
  | msgDaily : FactTag
  | memberUpsert : FactTag
  | interaction : String → String → FactTag
  | memberJoinEvent : FactTag
  | memberLeaveEvent : FactTag
deriving DecidableEq

/-- One awaited database call: target table, operation, fact tag. -/
structure SinkCall where
  table : String
  op : String
  tag : FactTag
deriving DecidableEq

/-- The outcome the Sink reports for one call: whether the returned
error is a missing-function error (the check of line 130), and whether
a row was found by a select. -/
structure Outcome where
  errFn : Bool
  found : Bool

/-- The calls `saveInteraction` makes (src/index.js lines 47-89):
nothing when source equals target, else a select followed by an update
or an insert depending on whether a row exists today. `i` indexes the
next Sink outcome consumed. -/
def saveInteractionCalls (o : Nat → Outcome) (i : Nat)
    (src tgt kind : String) : List SinkCall × Nat :=
  if src == tgt then ([], i)
  else
    let c2 : SinkCall :=
      if (o i).found then ⟨"member_interactions", "update", FactTag.interaction tgt kind⟩
      else ⟨"member_interactions", "insert", FactTag.interaction tgt kind⟩
    ([⟨"member_interactions", "select", FactTag.interaction tgt kind⟩, c2], i + 2)

/-- The mention loop of lines 194-197: one `saveInteraction` per
(already bot-filtered) mentioned user, in order. -/
def mentionCalls (o : Nat → Outcome) (src : String) :
    List User → Nat → List SinkCall × Nat
  | [], i => ([], i)
  | u :: rest, i =>
      let a := saveInteractionCalls o i src u.id "mention"
      let b := mentionCalls o src rest a.2
      (a.1 ++ b.1, b.2)

/-- The message-count fact calls of lines 122-156: the RPC, and on a
missing-function error the manual select plus update-or-insert. -/
def msgFactCalls (o : Nat → Outcome) : List SinkCall × Nat :=
  if (o 0).errFn then
    if (o 1).found then
      ([⟨"rpc", "rpc", FactTag.msgDaily⟩, ⟨"messages_daily", "select", FactTag.msgDaily⟩,
        ⟨"messages_daily", "update", FactTag.msgDaily⟩], 3)
    else
      ([⟨"rpc", "rpc", FactTag.msgDaily⟩, ⟨"messages_daily", "select", FactTag.msgDaily⟩,
        ⟨"messages_daily", "insert", FactTag.msgDaily⟩], 3)
  else ([⟨"rpc", "rpc", FactTag.msgDaily⟩], 1)

/-- The member-upsert fact calls of lines 159-190: a select and then
an update or an insert. -/
def memberFactCalls (o : Nat → Outcome) (i : Nat) : List SinkCall × Nat :=
  if (o i).found then
    ([⟨"members", "select", FactTag.memberUpsert⟩,
      ⟨"members", "update", FactTag.memberUpsert⟩], i + 2)
  else
    ([⟨"members", "select", FactTag.memberUpsert⟩,
      ⟨"members", "insert", FactTag.memberUpsert⟩], i + 2)

/-- The reply fact calls of lines 200-206: one `saveInteraction` under
the reply guard. -/
def replyCalls (o : Nat → Outcome) (i : Nat) (m : Message) :
    List SinkCall × Nat :=
  if m.hasReplyRef then
    match m.repliedUser with
    | some ru =>
        if !ru.bot && !(ru.id == m.authorId) then
          saveInteractionCalls o i m.authorId ru.id "reply"
        else ([], i)
    | none => ([], i)
  else ([], i)

/-- The full sequence of awaited database calls of the `MessageCreate`
handler (src/index.js lines 105-213), parametrized by the per-call
Sink outcomes `o`. Bot and direct-message events return before any
call (lines 107 and 110). -/
def messageSinkTrace (m : Message) (o : Nat → Outcome) : List SinkCall :=
  if m.authorBot || !m.inGuild then []
  else
    let a := msgFactCalls o
    let b := memberFactCalls o a.2
    let c := mentionCalls o m.authorId (mentionTargets m) b.2
    let d := replyCalls o c.2 m
    a.1 ++ b.1 ++ c.1 ++ d.1

/-- The interaction facts a trace attempts: the tag of every select
against `member_interactions`, the first call of each
`saveInteraction` that reaches the database. -/
def interactionAttempts (calls : List SinkCall) : List FactTag :=
  calls.filterMap (fun c =>
    match c.tag with
    | FactTag.interaction t k =>
        if c.op == "select" then some (FactTag.interaction t k) else none
    | _ => none)

/-- A `GuildMemberAdd` / `GuildMemberRemove` event after field
extraction: the bot flag of the account and the ids. -/
structure MemberEvent where
  isBot : Bool
  serverId : String
  memberId : String
  username : String
deriving DecidableEq

/-- The calls of the `GuildMemberAdd` handler (src/index.js lines
216-254): a member upsert and a join-event insert, with no bot
filter. -/
def memberAddTrace (_ev : MemberEvent) : List SinkCall :=
  [⟨"members", "upsert", FactTag.memberUpsert⟩,
   ⟨"member_events", "insert", FactTag.memberJoinEvent⟩]

/-- The calls of the `GuildMemberRemove` handler (src/index.js lines
257-283): a member update and a leave-event insert, with no bot
filter. -/
def memberRemoveTrace (_ev : MemberEvent) : List SinkCall :=
  [⟨"members", "update", FactTag.memberUpsert⟩,
   ⟨"member_events", "insert", FactTag.memberLeaveEvent⟩]

/-- Getting the key of a one-entry table yields its value. -/
theorem mapGet_single (k : String) (v : VoiceSession) :
    mapGet [(k, v)] k = some v := by
  simp [mapGet, List.find?]

/-- Setting a key on the empty table appends the entry. -/
theorem mapSet_nil (k : String) (v : VoiceSession) :
    mapSet [] k v = [(k, v)] := by
  simp [mapSet]

/-- Setting the key of a one-entry table replaces the value. -/
theorem mapSet_single (k : String) (v w : VoiceSession) :
    mapSet [(k, v)] k w = [(k, w)] := by
  simp [mapSet]

/-- Deleting the key of a one-entry table empties it. -/
theorem mapDelete_single (k : String) (v : VoiceSession) :
    mapDelete [(k, v)] k = [] := by
  simp [mapDelete]

/-- Single-key chained replays: record count equals the number of
leave and move-out observations, and the table entry for the key
matches the spec-level state, given matching starting invariants. -/
theorem replay_chain_aux (sid mid : String) :
    ∀ (events : List TimedVoiceEvent) (cur : Option Chan) (table : VTable)
      (st : Option (String × Nat)),
      singleKeyChain sid mid cur events = true →
      (cur = none → table = [] ∧ st = none) →
      (∀ c, cur = some c →
        (∃ t nm, table = [(sid ++ "-" ++ mid, ⟨t, c.id, nm⟩)]) ∧
        ∃ t0, st = some (c.id, t0)) →
      (voiceReplay table events).1.length = leaveCount events ∧
      (mapGet (voiceReplay table events).2 (sid ++ "-" ++ mid)).map
          (fun s => s.channelId)
        = (specVoiceState st events).map (fun p => p.1) := by
  intro events
  induction events with
  | nil =>
      intro cur table st _hchain hnone hsome
      cases cur with
      | none =>
          obtain ⟨htab, hst⟩ := hnone rfl
          subst htab; subst hst
          simp [voiceReplay, leaveCount, specVoiceState, mapGet]
      | some c =>
          obtain ⟨⟨t, nm, htab⟩, t0, hst⟩ := hsome c rfl
          subst htab; subst hst
          simp [voiceReplay, leaveCount, specVoiceState, mapGet_single]
  | cons e rest ih =>
      rcases e with ⟨⟨hmem, hbot, sid0, mid0, oldc, newc⟩, t1, t2⟩
      intro cur table st hchain hnone hsome
      simp only [singleKeyChain, goodKey, Bool.and_eq_true, beq_iff_eq,
        Bool.not_eq_true', decide_eq_true_eq] at hchain
      obtain ⟨⟨⟨⟨⟨hm, hb⟩, hsid⟩, hmid⟩, hold⟩, hrest⟩ := hchain
      subst hm; subst hb; subst hsid; subst hmid; subst hold
      cases oldc with
      | none =>
          obtain ⟨htab, hst⟩ := hnone rfl
          subst htab; subst hst
          cases newc with
          | none =>
              have := ih none [] none hrest (fun _ => ⟨rfl, rfl⟩)
                (fun c hc => Option.noConfusion hc)
              simpa [voiceReplay, handleVoice, leaveCount, isLeaveOut,
                specVoiceState, specVoiceStep] using this
          | some c =>
              have := ih (some c) [(sid0 ++ "-" ++ mid0, ⟨t1, c.id, c.name⟩)]
                (some (c.id, t1)) hrest (fun h => Option.noConfusion h)
                (fun c' hc' => by
                  cases Option.some.inj hc'
                  exact ⟨⟨t1, c.name, rfl⟩, t1, rfl⟩)
              simpa [voiceReplay, handleVoice, sessionKey, mapSet_nil,
                leaveCount, isLeaveOut, specVoiceState, specVoiceStep] using this
      | some c0 =>
          obtain ⟨⟨t, nm, htab⟩, t0, hst⟩ := hsome c0 rfl
          subst htab; subst hst
          cases newc with
          | none =>
              have := ih none [] none hrest (fun _ => ⟨rfl, rfl⟩)
                (fun c hc => Option.noConfusion hc)
              simpa [voiceReplay, handleVoice, sessionKey, mapGet_single,
                mapDelete_single, leaveCount, isLeaveOut, specVoiceState,
                specVoiceStep] using this
          | some d =>
              by_cases hid : c0.id = d.id
              · have := ih (some d) [(sid0 ++ "-" ++ mid0, ⟨t, c0.id, nm⟩)]
                  (some (c0.id, t0)) hrest (fun h => Option.noConfusion h)
                  (fun c' hc' => by
                    cases Option.some.inj hc'
                    refine ⟨⟨t, nm, ?_⟩, t0, ?_⟩ <;> rw [hid])
                simpa [voiceReplay, handleVoice, sessionKey, leaveCount,
                  isLeaveOut, specVoiceState, specVoiceStep, hid] using this
              · have := ih (some d) [(sid0 ++ "-" ++ mid0, ⟨t2, d.id, d.name⟩)]
                  (some (d.id, t1)) hrest (fun h => Option.noConfusion h)
                  (fun c' hc' => by
                    cases Option.some.inj hc'
                    exact ⟨⟨t2, d.name, rfl⟩, t1, rfl⟩)
                simpa [voiceReplay, handleVoice, sessionKey, mapGet_single,
                  mapSet_single, leaveCount, isLeaveOut, specVoiceState,
                  specVoiceStep, hid] using this

/-- Claim C2 (amended): for every finite single-key sequence of
(before, after) observations that is a genuine chained history (first
before-channel is none, each before equals the previous after),
replayed from an empty table, the number of emitted records equals the
number of leave plus move-out transitions, and the final table entry
for the key is Absent or Occupied of exactly the channel predicted by
the section 4.2 transition table. -/
theorem replay_count_chained (sid mid : String) (events : List TimedVoiceEvent)
    (h : singleKeyChain sid mid none events = true) :
    (voiceReplay [] events).1.length = leaveCount events ∧
    (mapGet (voiceReplay [] events).2 (sid ++ "-" ++ mid)).map
        (fun s => s.channelId)
      = (specVoiceState none events).map (fun p => p.1) :=
  replay_chain_aux sid mid events none [] none h (fun _ => ⟨rfl, rfl⟩)
    (fun _ hc => Option.noConfusion hc)

/-- Witness for C2 on the section 8 example: join channel a, move to
channel b, leave. -/
theorem replay_count_chained_witness :
    singleKeyChain "s" "m" none
        [⟨⟨true, false, "s", "m", none, some ⟨"a", "A"⟩⟩, 0, 0⟩,
         ⟨⟨true, false, "s", "m", some ⟨"a", "A"⟩, some ⟨"b", "B"⟩⟩, 300000, 300000⟩,
         ⟨⟨true, false, "s", "m", some ⟨"b", "B"⟩, none⟩, 480000, 480000⟩] = true ∧
    ((voiceReplay []
        [⟨⟨true, false, "s", "m", none, some ⟨"a", "A"⟩⟩, 0, 0⟩,
         ⟨⟨true, false, "s", "m", some ⟨"a", "A"⟩, some ⟨"b", "B"⟩⟩, 300000, 300000⟩,
         ⟨⟨true, false, "s", "m", some ⟨"b", "B"⟩, none⟩, 480000, 480000⟩]).1.length
      = leaveCount
        [⟨⟨true, false, "s", "m", none, some ⟨"a", "A"⟩⟩, 0, 0⟩,
         ⟨⟨true, false, "s", "m", some ⟨"a", "A"⟩, some ⟨"b", "B"⟩⟩, 300000, 300000⟩,
         ⟨⟨true, false, "s", "m", some ⟨"b", "B"⟩, none⟩, 480000, 480000⟩] ∧
    (mapGet (voiceReplay []
        [⟨⟨true, false, "s", "m", none, some ⟨"a", "A"⟩⟩, 0, 0⟩,
         ⟨⟨true, false, "s", "m", some ⟨"a", "A"⟩, some ⟨"b", "B"⟩⟩, 300000, 300000⟩,
         ⟨⟨true, false, "s", "m", some ⟨"b", "B"⟩, none⟩, 480000, 480000⟩]).2 ("s" ++ "-" ++ "m")).map
        (fun s => s.channelId)
      = (specVoiceState none
        [⟨⟨true, false, "s", "m", none, some ⟨"a", "A"⟩⟩, 0, 0⟩,
         ⟨⟨true, false, "s", "m", some ⟨"a", "A"⟩, some ⟨"b", "B"⟩⟩, 300000, 300000⟩,
         ⟨⟨true, false, "s", "m", some ⟨"b", "B"⟩, none⟩, 480000, 480000⟩]).map (fun p => p.1)) :=
  ⟨by decide, replay_count_chained "s" "m" _ (by decide)⟩

/-- Counterexample for C2 as stated: a single leave observation with
no prior join, replayed from the empty table, emits zero records while
the sequence has one leave transition. -/
theorem replay_count_cex :
    (voiceReplay []
        [⟨⟨true, false, "s", "m", some ⟨"c", "general"⟩, none⟩, 5, 5⟩]).1.length = 0 ∧
    leaveCount [⟨⟨true, false, "s", "m", some ⟨"c", "general"⟩, none⟩, 5, 5⟩] = 1 := by
  decide

/-- Setting a key then getting it yields the set value. -/
theorem mapGet_mapSet (m : VTable) (k : String) (v : VoiceSession) :
    mapGet (mapSet m k v) k = some v := by
  induction m with
  | nil => simp [mapGet, mapSet, List.find?]
  | cons p rest ih =>
      by_cases hp : (p.1 == k) = true
      · simp [mapSet, hp, mapGet, List.find?]
      · simp only [mapSet, hp, Bool.false_eq_true, if_false]
        simpa [mapGet, List.find?, hp] using ih

/-- Every entry of `mapSet m k v` is an entry of `m` or the new
(k, v) entry. -/
theorem mem_mapSet (m : VTable) (k : String) (v : VoiceSession) (p : String × VoiceSession)
    (h : p ∈ mapSet m k v) : p ∈ m ∨ p = (k, v) := by
  induction m with
  | nil => simpa [mapSet] using h
  | cons q rest ih =>
      by_cases hq : (q.1 == k) = true
      · simp only [mapSet, hq, if_true] at h
        rcases List.mem_cons.mp h with h1 | h2
        · exact Or.inr h1
        · exact Or.inl (List.mem_cons_of_mem q h2)
      · simp only [mapSet, hq, Bool.false_eq_true, if_false] at h
        rcases List.mem_cons.mp h with h1 | h2
        · exact Or.inl (h1 ▸ List.mem_cons_self q rest)
        · rcases ih h2 with h3 | h4
          · exact Or.inl (List.mem_cons_of_mem q h3)
          · exact Or.inr h4

/-- Every entry of `mapDelete m k` is an entry of `m`. -/
theorem mem_mapDelete (m : VTable) (k : String) (p : String × VoiceSession)
    (h : p ∈ mapDelete m k) : p ∈ m :=
  List.mem_of_mem_filter h

/-- A successful get returns the value of some entry of the table. -/
theorem mapGet_mem (m : VTable) (k : String) (s : VoiceSession)
    (h : mapGet m k = some s) : ∃ p ∈ m, p.2 = s := by
  unfold mapGet at h
  cases hf : m.find? (fun p => p.1 == k) with
  | none => rw [hf] at h; simp at h
  | some p =>
      rw [hf] at h
      exact ⟨p, List.mem_of_find?_eq_some hf, by simpa using h⟩

/-- Every key of `mapSet m k v` is a key of `m` or the new key. -/
theorem mem_keys_mapSet (m : VTable) (k : String) (v : VoiceSession) (x : String)
    (h : x ∈ (mapSet m k v).map Prod.fst) : x ∈ m.map Prod.fst ∨ x = k := by
  rcases List.mem_map.mp h with ⟨p, hp, hx⟩
  rcases mem_mapSet m k v p hp with h1 | h2
  · exact Or.inl (List.mem_map.mpr ⟨p, h1, hx⟩)
  · subst h2; exact Or.inr hx.symm

/-- `mapSet` preserves distinctness of keys. -/
theorem nodup_keys_mapSet (m : VTable) (k : String) (v : VoiceSession)
    (h : (m.map Prod.fst).Nodup) : ((mapSet m k v).map Prod.fst).Nodup := by
  induction m with
  | nil => simp [mapSet]
  | cons p rest ih =>
      simp only [List.map_cons, List.nodup_cons] at h
      by_cases hp : (p.1 == k) = true
      · have hk : p.1 = k := by simpa using hp
        simp only [mapSet, hp, if_true, List.map_cons, List.nodup_cons]
        exact ⟨hk ▸ h.1, h.2⟩
      · have hk : p.1 ≠ k := by simpa using hp
        simp only [mapSet, hp, Bool.false_eq_true, if_false, List.map_cons,
          List.nodup_cons]
        refine ⟨fun hmem => ?_, ih h.2⟩
        rcases mem_keys_mapSet rest k v p.1 hmem with h1 | h2
        · exact h.1 h1
        · exact hk h2

/-- `mapDelete` preserves distinctness of keys. -/
theorem nodup_keys_mapDelete (m : VTable) (k : String)
    (h : (m.map Prod.fst).Nodup) : ((mapDelete m k).map Prod.fst).Nodup :=
  List.Nodup.sublist (List.Sublist.map Prod.fst (List.filter_sublist m)) h

/-- Claim C1 (refuted by the code, clock slip): on a move from channel
a to channel b with an open session, the handler emits exactly one
record for a, ended at the first clock reading (1000), but opens the
new session at the second clock reading (61000) taken after the
awaited insert, so the record's ended-at differs from the new
session's started-at. -/
theorem move_two_clock_readings :
    (handleVoice [("s-m", ⟨0, "a", "A"⟩)]
        ⟨true, false, "s", "m", some ⟨"a", "A"⟩, some ⟨"b", "B"⟩⟩ 1000 61000).1
      = [⟨"s", "m", "a", "A", 0, 1000, 0⟩] ∧
    mapGet (handleVoice [("s-m", ⟨0, "a", "A"⟩)]
        ⟨true, false, "s", "m", some ⟨"a", "A"⟩, some ⟨"b", "B"⟩⟩ 1000 61000).2 "s-m"
      = some ⟨61000, "b", "B"⟩ ∧
    (1000 : Nat) ≠ 61000 := by
  decide

/-- Counterexample for C4 as stated: a move observed with no open
session emits no record but does modify the table (it opens a session
for the destination channel). -/
theorem move_no_session_sets_cex :
    (handleVoice ([] : VTable)
        ⟨true, false, "s", "m", some ⟨"a", "A"⟩, some ⟨"b", "B"⟩⟩ 7 9).1 = [] ∧
    (handleVoice ([] : VTable)
        ⟨true, false, "s", "m", some ⟨"a", "A"⟩, some ⟨"b", "B"⟩⟩ 7 9).2 ≠ [] := by
  decide

/-- Claim C4 (amended): with no open session for the key, a leave
emits no record and leaves the table unchanged, while a move-out emits
no record but opens a fresh session for the destination channel. -/
theorem noOpenSession_behavior (table : VTable) (ev : VoiceEvent) (t1 t2 : Nat)
    (hm : ev.hasMember = true) (hb : ev.isBot = false)
    (hs : mapGet table (sessionKey ev) = none) :
    (ev.newChannel = none → handleVoice table ev t1 t2 = ([], table)) ∧
    (∀ c d, ev.oldChannel = some c → ev.newChannel = some d → c.id ≠ d.id →
      (handleVoice table ev t1 t2).1 = [] ∧
      (handleVoice table ev t1 t2).2
        = mapSet table (sessionKey ev) ⟨t2, d.id, d.name⟩) := by
  rcases ev with ⟨hmem, hbot, sid, mid, oldc, newc⟩
  simp only at hm hb hs
  subst hm; subst hb
  constructor
  · intro hnew
    simp only at hnew
    subst hnew
    cases oldc with
    | none => simp [handleVoice]
    | some c => simp [handleVoice, hs]
  · intro c d hc hd hne
    simp only at hc hd
    subst hc; subst hd
    have hne2 : (c.id == d.id) = false := by simpa using hne
    simp [handleVoice, hs, hne2]

/-- Witness for C4 at a concrete leave and a concrete move with an
empty table. -/
theorem noOpenSession_behavior_witness :
    handleVoice ([] : VTable)
        ⟨true, false, "s", "m", some ⟨"a", "A"⟩, none⟩ 3 4 = ([], []) ∧
    ((handleVoice ([] : VTable)
        ⟨true, false, "s", "m", some ⟨"a", "A"⟩, some ⟨"b", "B"⟩⟩ 3 4).1 = [] ∧
      (handleVoice ([] : VTable)
        ⟨true, false, "s", "m", some ⟨"a", "A"⟩, some ⟨"b", "B"⟩⟩ 3 4).2
        = mapSet []
            (sessionKey ⟨true, false, "s", "m", some ⟨"a", "A"⟩, some ⟨"b", "B"⟩⟩)
            ⟨4, "b", "B"⟩) :=
  ⟨(noOpenSession_behavior [] ⟨true, false, "s", "m", some ⟨"a", "A"⟩, none⟩ 3 4
      rfl rfl (by decide)).1 rfl,
   (noOpenSession_behavior []
      ⟨true, false, "s", "m", some ⟨"a", "A"⟩, some ⟨"b", "B"⟩⟩ 3 4
      rfl rfl (by decide)).2 ⟨"a", "A"⟩ ⟨"b", "B"⟩ rfl rfl (by decide)⟩

/-- Claim C10: a join observed while the key already has an open
session silently overwrites the table entry with a fresh session for
the joined channel and emits no record for the previously open
segment. -/
theorem join_overwrites (table : VTable) (ev : VoiceEvent) (t1 t2 : Nat)
    (c : Chan) (s : VoiceSession)
    (hm : ev.hasMember = true) (hb : ev.isBot = false)
    (hold : ev.oldChannel = none) (hnew : ev.newChannel = some c)
    (hs : mapGet table (sessionKey ev) = some s) :
    (handleVoice table ev t1 t2).1 = [] ∧
    mapGet (handleVoice table ev t1 t2).2 (sessionKey ev)
      = some ⟨t1, c.id, c.name⟩ := by
  rcases ev with ⟨hmem, hbot, sid, mid, oldc, newc⟩
  simp only at hm hb hold hnew hs
  subst hm; subst hb; subst hold; subst hnew
  exact ⟨by simp [handleVoice], by simp [handleVoice, mapGet_mapSet]⟩

/-- Witness for C10: key s-m is open in channel a, then a join to
channel b is observed. -/
theorem join_overwrites_witness :
    (handleVoice [("s-m", ⟨5, "a", "A"⟩)]
        ⟨true, false, "s", "m", none, some ⟨"b", "B"⟩⟩ 11 12).1 = [] ∧
    mapGet (handleVoice [("s-m", ⟨5, "a", "A"⟩)]
        ⟨true, false, "s", "m", none, some ⟨"b", "B"⟩⟩ 11 12).2
        (sessionKey ⟨true, false, "s", "m", none, some ⟨"b", "B"⟩⟩)
      = some ⟨11, "b", "B"⟩ :=
  join_overwrites [("s-m", ⟨5, "a", "A"⟩)]
    ⟨true, false, "s", "m", none, some ⟨"b", "B"⟩⟩ 11 12 ⟨"b", "B"⟩ ⟨5, "a", "A"⟩
    rfl rfl rfl rfl (by decide)

/-- One handler step preserves distinctness of table keys. -/
theorem handleVoice_nodup (table : VTable) (ev : VoiceEvent) (t1 t2 : Nat)
    (h : (table.map Prod.fst).Nodup) :
    (((handleVoice table ev t1 t2).2).map Prod.fst).Nodup := by
  rcases ev with ⟨hmem, hbot, sid, mid, oldc, newc⟩
  unfold handleVoice
  by_cases hg : (!hmem || hbot) = true
  · simp only [hg, if_true]
    exact h
  · simp only [hg, Bool.false_eq_true, if_false]
    cases oldc with
    | none =>
        cases newc with
        | none => exact h
        | some c => exact nodup_keys_mapSet _ _ _ h
    | some c =>
        cases newc with
        | none =>
            cases hsess : mapGet table (sessionKey ⟨hmem, hbot, sid, mid, some c, none⟩) with
            | some s =>
                simp only [hsess]
                exact nodup_keys_mapDelete _ _ h
            | none =>
                simp only [hsess]
                exact h
        | some d =>
            by_cases hid : (c.id == d.id) = true
            · simp only [hid, if_true]
              exact h
            · simp only [hid, Bool.false_eq_true, if_false]
              exact nodup_keys_mapSet _ _ _ h

/-- A whole replay preserves distinctness of table keys. -/
theorem voiceReplay_nodup (events : List TimedVoiceEvent) :
    ∀ table : VTable, (table.map Prod.fst).Nodup →
      (((voiceReplay table events).2).map Prod.fst).Nodup := by
  induction events with
  | nil => intro table h; exact h
  | cons e rest ih =>
      intro table h
      exact ih _ (handleVoice_nodup table e.ev e.t1 e.t2 h)

/-- Claim C7: the table keeps at most one open session per key (its
key list stays duplicate-free): every single transition preserves the
invariant, and it holds after any replay from the empty table. -/
theorem voice_table_unique_key (table : VTable) (ev : VoiceEvent) (t1 t2 : Nat)
    (events : List TimedVoiceEvent) (h : (table.map Prod.fst).Nodup) :
    (((handleVoice table ev t1 t2).2).map Prod.fst).Nodup ∧
    (((voiceReplay table events).2).map Prod.fst).Nodup :=
  ⟨handleVoice_nodup table ev t1 t2 h, voiceReplay_nodup events table h⟩

/-- Witness for C7 at a concrete table, transition and replay. -/
theorem voice_table_unique_key_witness :
    (((handleVoice [("s-m", ⟨5, "a", "A"⟩)]
        ⟨true, false, "s", "m", none, some ⟨"b", "B"⟩⟩ 11 12).2).map Prod.fst).Nodup ∧
    (((voiceReplay [("s-m", ⟨5, "a", "A"⟩)]
        [⟨⟨true, false, "s", "x", none, some ⟨"b", "B"⟩⟩, 11, 12⟩]).2).map Prod.fst).Nodup :=
  voice_table_unique_key [("s-m", ⟨5, "a", "A"⟩)]
    ⟨true, false, "s", "m", none, some ⟨"b", "B"⟩⟩ 11 12
    [⟨⟨true, false, "s", "x", none, some ⟨"b", "B"⟩⟩, 11, 12⟩] (by decide)

/-- Rounding a non-negative difference gives a non-negative count of
minutes. -/
theorem roundDiv60000_nonneg (d : Int) (h : 0 ≤ d) : 0 ≤ roundDiv60000 d :=
  Int.fdiv_nonneg (by omega) (by norm_num)

/-- The records one handler step emits are well-formed whenever every
open session started no later than `t1`. -/
theorem handleVoice_records_good (table : VTable) (ev : VoiceEvent)
    (t1 t2 lo : Nat) (h1 : lo ≤ t1)
    (hinv : ∀ p ∈ table, p.2.startedAt ≤ lo) :
    ∀ r ∈ (handleVoice table ev t1 t2).1,
      r.startedAt ≤ r.endedAt ∧
      r.durationMinutes = roundDiv60000 ((r.endedAt : Int) - (r.startedAt : Int)) ∧
      0 ≤ r.durationMinutes := by
  have key : ∀ s : VoiceSession, mapGet table (sessionKey ev) = some s →
      ∀ r ∈ [mkRecord ev s t1],
        r.startedAt ≤ r.endedAt ∧
        r.durationMinutes = roundDiv60000 ((r.endedAt : Int) - (r.startedAt : Int)) ∧
        0 ≤ r.durationMinutes := by
    intro s hs r hr
    rcases List.mem_singleton.mp hr with rfl
    obtain ⟨p, hp, hps⟩ := mapGet_mem table (sessionKey ev) s hs
    have hle : s.startedAt ≤ t1 := le_trans (hps ▸ hinv p hp) h1
    refine ⟨hle, rfl, roundDiv60000_nonneg _ (by simp [mkRecord]; omega)⟩
  rcases ev with ⟨hmem, hbot, sid, mid, oldc, newc⟩
  unfold handleVoice
  by_cases hg : (!hmem || hbot) = true
  · simp [hg]
  · simp only [hg, Bool.false_eq_true, if_false]
    cases oldc with
    | none =>
        cases newc with
        | none => simp
        | some c => simp
    | some c =>
        cases newc with
        | none =>
            cases hsess : mapGet table (sessionKey ⟨hmem, hbot, sid, mid, some c, none⟩) with
            | some s =>
                simp only [hsess]
                exact key s hsess
            | none => simp [hsess]
        | some d =>
            by_cases hid : (c.id == d.id) = true
            · simp [hid]
            · simp only [hid, Bool.false_eq_true, if_false]
              cases hsess : mapGet table (sessionKey ⟨hmem, hbot, sid, mid, some c, some d⟩) with
              | some s =>
                  simp only [hsess]
                  exact key s hsess
              | none => simp [hsess]

/-- One handler step keeps every open session's start time at or
below the later clock reading. -/
theorem handleVoice_table_bound (table : VTable) (ev : VoiceEvent)
    (t1 t2 lo : Nat) (h1 : lo ≤ t1) (h2 : t1 ≤ t2)
    (hinv : ∀ p ∈ table, p.2.startedAt ≤ lo) :
    ∀ p ∈ (handleVoice table ev t1 t2).2, p.2.startedAt ≤ t2 := by
  have hold : ∀ p ∈ table, p.2.startedAt ≤ t2 :=
    fun p hp => le_trans (hinv p hp) (le_trans h1 h2)
  have hset : ∀ (v : VoiceSession), v.startedAt ≤ t2 →
      ∀ p ∈ mapSet table (sessionKey ev) v, p.2.startedAt ≤ t2 := by
    intro v hv p hp
    rcases mem_mapSet table (sessionKey ev) v p hp with h | h
    · exact hold p h
    · rw [h]; exact hv
  rcases ev with ⟨hmem, hbot, sid, mid, oldc, newc⟩
  unfold handleVoice
  by_cases hg : (!hmem || hbot) = true
  · simp only [hg, if_true]
    exact hold
  · simp only [hg, Bool.false_eq_true, if_false]
    cases oldc with
    | none =>
        cases newc with
        | none => exact hold
        | some c => exact hset ⟨t1, c.id, c.name⟩ h2
    | some c =>
        cases newc with
        | none =>
            cases hsess : mapGet table (sessionKey ⟨hmem, hbot, sid, mid, some c, none⟩) with
            | some s =>
                simp only [hsess]
                exact fun p hp => hold p (mem_mapDelete table _ p hp)
            | none =>
                simp only [hsess]
                exact hold
        | some d =>
            by_cases hid : (c.id == d.id) = true
            · simp only [hid, if_true]
              exact hold
            · simp only [hid, Bool.false_eq_true, if_false]
              exact hset ⟨t2, d.id, d.name⟩ le_rfl

/-- Replays with a monotone clock emit only well-formed records. -/
theorem replay_bounds_aux :
    ∀ (events : List TimedVoiceEvent) (table : VTable) (lo : Nat),
      timesMonotone lo events = true →
      (∀ p ∈ table, p.2.startedAt ≤ lo) →
      ∀ r ∈ (voiceReplay table events).1,
        r.startedAt ≤ r.endedAt ∧
        r.durationMinutes = roundDiv60000 ((r.endedAt : Int) - (r.startedAt : Int)) ∧
        0 ≤ r.durationMinutes := by
  intro events
  induction events with
  | nil =>
      intro table lo _ _ r hr
      simp [voiceReplay] at hr
  | cons e rest ih =>
      intro table lo hmono hinv r hr
      rcases e with ⟨ev, t1, t2⟩
      simp only [timesMonotone, Bool.and_eq_true, Nat.ble_eq] at hmono
      obtain ⟨⟨h1, h2⟩, hrest⟩ := hmono
      simp only [voiceReplay] at hr
      rcases List.mem_append.mp hr with hhd | htl
      · exact handleVoice_records_good table ev t1 t2 lo h1 hinv r hhd
      · exact ih _ t2 hrest
          (handleVoice_table_bound table ev t1 t2 lo h1 h2 hinv) r htl

/-- Claim C8: with a monotone clock, every record a replay from the
empty table emits satisfies ended-at at or after started-at, has
duration equal to the rounded minute difference, and the duration is
non-negative. -/
theorem replay_record_bounds (events : List TimedVoiceEvent) (lo : Nat)
    (h : timesMonotone lo events = true) (r : VoiceRecord)
    (hr : r ∈ (voiceReplay [] events).1) :
    r.startedAt ≤ r.endedAt ∧
    r.durationMinutes = roundDiv60000 ((r.endedAt : Int) - (r.startedAt : Int)) ∧
    0 ≤ r.durationMinutes :=
  replay_bounds_aux events [] lo h (by simp) r hr

/-- Witness for C8 on the join/move/leave example: the first emitted
record spans 0 to 300000 milliseconds with duration 5. -/
theorem replay_record_bounds_witness :
    timesMonotone 0
        [⟨⟨true, false, "s", "m", none, some ⟨"a", "A"⟩⟩, 0, 0⟩,
         ⟨⟨true, false, "s", "m", some ⟨"a", "A"⟩, some ⟨"b", "B"⟩⟩, 300000, 300000⟩,
         ⟨⟨true, false, "s", "m", some ⟨"b", "B"⟩, none⟩, 480000, 480000⟩] = true ∧
    ((⟨"s", "m", "a", "A", 0, 300000, 5⟩ : VoiceRecord).startedAt
        ≤ (⟨"s", "m", "a", "A", 0, 300000, 5⟩ : VoiceRecord).endedAt ∧
      (⟨"s", "m", "a", "A", 0, 300000, 5⟩ : VoiceRecord).durationMinutes
        = roundDiv60000 ((((⟨"s", "m", "a", "A", 0, 300000, 5⟩ : VoiceRecord).endedAt : Int))
            - (((⟨"s", "m", "a", "A", 0, 300000, 5⟩ : VoiceRecord).startedAt : Int))) ∧
      0 ≤ (⟨"s", "m", "a", "A", 0, 300000, 5⟩ : VoiceRecord).durationMinutes) :=
  ⟨by decide,
   replay_record_bounds
    [⟨⟨true, false, "s", "m", none, some ⟨"a", "A"⟩⟩, 0, 0⟩,
     ⟨⟨true, false, "s", "m", some ⟨"a", "A"⟩, some ⟨"b", "B"⟩⟩, 300000, 300000⟩,
     ⟨⟨true, false, "s", "m", some ⟨"b", "B"⟩, none⟩, 480000, 480000⟩] 0 (by decide)
    ⟨"s", "m", "a", "A", 0, 300000, 5⟩ (by decide)⟩

/-- Counterexample for C3 as stated: on a leave with an open session
the handler's operation trace performs the awaited Sink inserts before
deleting the table entry, so the table mutation does not happen before
the record is handed to the Sink. -/
theorem leave_mutation_after_sink_cex :
    mutationsBeforeSinks (voiceOpTrace [("s-m", ⟨0, "a", "A"⟩)]
        ⟨true, false, "s", "m", some ⟨"a", "A"⟩, none⟩ false) = false := by
  decide

/-- Claim C3 (amended): the open/close decision (the table read)
always precedes every Sink call, and a join mutates the table before
any Sink call; but on a leave or move-out with an open session the
table mutation (delete or set) is performed only after the session
record has been handed to the Sink. -/
theorem voice_table_ordering (table : VTable) (ev : VoiceEvent) (mf : Bool) :
    readsBeforeSinks (voiceOpTrace table ev mf) = true ∧
    (ev.oldChannel = none → mutationsBeforeSinks (voiceOpTrace table ev mf) = true) ∧
    (isLeaveOut ev = true → ev.hasMember = true → ev.isBot = false →
      (mapGet table (sessionKey ev)).isSome = true →
      mutationsBeforeSinks (voiceOpTrace table ev mf) = false) := by
  rcases ev with ⟨hmem, hbot, sid, mid, oldc, newc⟩
  by_cases hg : (!hmem || hbot) = true
  · simp only [voiceOpTrace, hg, if_true]
    refine ⟨rfl, fun _ => rfl, fun _ hm hb _ => ?_⟩
    simp only at hm hb
    rw [hm, hb] at hg
    simp at hg
  · simp only [voiceOpTrace, hg, Bool.false_eq_true, if_false]
    cases oldc with
    | none =>
        cases newc with
        | none => exact ⟨rfl, fun _ => rfl, fun hlv => by simp [isLeaveOut] at hlv⟩
        | some c => exact ⟨rfl, fun _ => rfl, fun hlv => by simp [isLeaveOut] at hlv⟩
    | some c =>
        cases newc with
        | none =>
            cases hsess : mapGet table (sessionKey ⟨hmem, hbot, sid, mid, some c, none⟩) with
            | some s =>
                simp only [hsess]
                cases mf with
                | true =>
                    refine ⟨by decide, fun h => by simp at h, fun _ _ _ _ => by decide⟩
                | false =>
                    refine ⟨by decide, fun h => by simp at h, fun _ _ _ _ => by decide⟩
            | none =>
                simp only [hsess]
                refine ⟨by decide, fun h => by simp at h, fun _ _ _ hs => ?_⟩
                simp at hs
        | some d =>
            by_cases hid : (c.id == d.id) = true
            · simp only [hid, if_true]
              refine ⟨rfl, fun h => by simp at h, fun hlv _ _ _ => ?_⟩
              simp [isLeaveOut, hid] at hlv
            · simp only [hid, Bool.false_eq_true, if_false]
              cases hsess : mapGet table (sessionKey ⟨hmem, hbot, sid, mid, some c, some d⟩) with
              | some s =>
                  simp only [hsess]
                  refine ⟨by decide, fun h => by simp at h, fun _ _ _ _ => by decide⟩
              | none =>
                  simp only [hsess]
                  refine ⟨by decide, fun h => by simp at h, fun _ _ _ hs => ?_⟩
                  simp at hs

/-- Witness for C3 on a concrete leave with an open session. -/
theorem voice_table_ordering_witness :
    readsBeforeSinks (voiceOpTrace [("s-m", ⟨0, "a", "A"⟩)]
        ⟨true, false, "s", "m", some ⟨"a", "A"⟩, none⟩ true) = true ∧
    ((⟨true, false, "s", "m", some ⟨"a", "A"⟩, none⟩ : VoiceEvent).oldChannel = none →
      mutationsBeforeSinks (voiceOpTrace [("s-m", ⟨0, "a", "A"⟩)]
        ⟨true, false, "s", "m", some ⟨"a", "A"⟩, none⟩ true) = true) ∧
    (isLeaveOut ⟨true, false, "s", "m", some ⟨"a", "A"⟩, none⟩ = true →
      (⟨true, false, "s", "m", some ⟨"a", "A"⟩, none⟩ : VoiceEvent).hasMember = true →
      (⟨true, false, "s", "m", some ⟨"a", "A"⟩, none⟩ : VoiceEvent).isBot = false →
      (mapGet [("s-m", ⟨0, "a", "A"⟩)]
        (sessionKey ⟨true, false, "s", "m", some ⟨"a", "A"⟩, none⟩)).isSome = true →
      mutationsBeforeSinks (voiceOpTrace [("s-m", ⟨0, "a", "A"⟩)]
        ⟨true, false, "s", "m", some ⟨"a", "A"⟩, none⟩ true) = false) :=
  voice_table_ordering [("s-m", ⟨0, "a", "A"⟩)]
    ⟨true, false, "s", "m", some ⟨"a", "A"⟩, none⟩ true

/-- Counting a filterMap that skips exactly the entries satisfying a
condition. -/
theorem length_filterMap_skip {α β : Type} (c : α → Bool) (f : α → β) :
    ∀ L : List α,
      (L.filterMap (fun u => if c u then none else some (f u))).length
        = (L.filter (fun u => !(c u))).length := by
  intro L
  induction L with
  | nil => simp
  | cons a rest ih =>
      by_cases h : c a = true
      · simp [h, ih]
      · simp [h, ih]

/-- Claim C5: every interaction edge has source distinct from target,
every mention edge targets a non-bot mentioned user, and the number of
mention edges equals the number of non-bot mention occurrences whose
id differs from the author (so the same user mentioned twice yields
two edges, with no de-duplication). -/
theorem mention_edge_filters (m : Message) :
    (∀ e ∈ interactionEdges m, e.sourceId ≠ e.targetId) ∧
    (∀ e ∈ interactionEdges m, e.kind = "mention" →
      ∃ u ∈ m.mentions, u.bot = false ∧ u.id = e.targetId) ∧
    ((interactionEdges m).filter (fun e => e.kind == "mention")).length
      = (if m.authorBot || !m.inGuild then 0
         else ((mentionTargets m).filter (fun u => !(m.authorId == u.id))).length) := by
  by_cases hbg : (m.authorBot || !m.inGuild) = true
  · simp [interactionEdges, hbg]
  · have hA : ∀ e ∈ (mentionTargets m).filterMap (fun u =>
        if m.authorId == u.id then none
        else some (⟨m.serverId, m.authorId, u.id, "mention", m.channelId⟩ : InteractionEdge)),
        e.sourceId = m.authorId ∧ e.kind = "mention" ∧ m.authorId ≠ e.targetId ∧
        ∃ u ∈ m.mentions, u.bot = false ∧ u.id = e.targetId := by
      intro e he
      rcases List.mem_filterMap.mp he with ⟨u, hu, heq⟩
      by_cases hg2 : (m.authorId == u.id) = true
      · simp [hg2] at heq
      · simp only [hg2, Bool.false_eq_true, if_false, Option.some.injEq] at heq
        subst heq
        have hu2 := List.mem_filter.mp hu
        refine ⟨rfl, rfl, by simpa using hg2, u, hu2.1, by simpa using hu2.2, rfl⟩
    have hB : ∀ e ∈ (if m.hasReplyRef then
        match m.repliedUser with
        | some ru =>
            if !ru.bot && !(ru.id == m.authorId) then
              [(⟨m.serverId, m.authorId, ru.id, "reply", m.channelId⟩ : InteractionEdge)]
            else []
        | none => []
       else []),
        e.sourceId = m.authorId ∧ e.kind = "reply" ∧ m.authorId ≠ e.targetId := by
      intro e he
      by_cases hrr : m.hasReplyRef = true
      · rw [if_pos hrr] at he
        cases hru : m.repliedUser with
        | none => rw [hru] at he; cases he
        | some ru =>
            rw [hru] at he
            dsimp only at he
            by_cases hgd : (!ru.bot && !(ru.id == m.authorId)) = true
            · rw [if_pos hgd] at he
              rcases List.mem_singleton.mp he with rfl
              have := (Bool.and_eq_true _ _).mp hgd
              refine ⟨rfl, rfl, ?_⟩
              have : (ru.id == m.authorId) = false := by
                rcases this with ⟨_, h2⟩
                simpa using h2
              have hne : ru.id ≠ m.authorId := by simpa using this
              exact fun h => hne (h.symm)
            · rw [if_neg hgd] at he; cases he
      · rw [if_neg hrr] at he; cases he
    have hsplit : interactionEdges m
        = (mentionTargets m).filterMap (fun u =>
            if m.authorId == u.id then none
            else some (⟨m.serverId, m.authorId, u.id, "mention", m.channelId⟩ : InteractionEdge))
          ++ (if m.hasReplyRef then
              match m.repliedUser with
              | some ru =>
                  if !ru.bot && !(ru.id == m.authorId) then
                    [(⟨m.serverId, m.authorId, ru.id, "reply", m.channelId⟩ : InteractionEdge)]
                  else []
              | none => []
             else []) := by
      simp [interactionEdges, hbg]
    refine ⟨?_, ?_, ?_⟩
    · intro e he
      rw [hsplit] at he
      rcases List.mem_append.mp he with h1 | h2
      · rcases hA e h1 with ⟨hsrc, _, hne, _⟩
        rw [hsrc]; exact hne
      · rcases hB e h2 with ⟨hsrc, _, hne⟩
        rw [hsrc]; exact hne
    · intro e he hk
      rw [hsplit] at he
      rcases List.mem_append.mp he with h1 | h2
      · exact (hA e h1).2.2.2
      · rcases hB e h2 with ⟨_, hknd, _⟩
        rw [hknd] at hk
        exact absurd hk (by decide)
    · rw [hsplit, List.filter_append, List.length_append, if_neg hbg]
      have hBlen : ((if m.hasReplyRef then
          match m.repliedUser with
          | some ru =>
              if !ru.bot && !(ru.id == m.authorId) then
                [(⟨m.serverId, m.authorId, ru.id, "reply", m.channelId⟩ : InteractionEdge)]
              else []
          | none => []
         else []).filter (fun e => e.kind == "mention")).length = 0 := by
        by_cases hrr : m.hasReplyRef = true
        · rw [if_pos hrr]
          cases hru : m.repliedUser with
          | none => simp
          | some ru =>
              dsimp only
              by_cases hgd : (!ru.bot && !(ru.id == m.authorId)) = true
              · rw [if_pos hgd]; simp
              · rw [if_neg hgd]; simp
        · rw [if_neg hrr]; simp
      rw [hBlen, Nat.add_zero]
      have hAfil : ((mentionTargets m).filterMap (fun u =>
          if m.authorId == u.id then none
          else some (⟨m.serverId, m.authorId, u.id, "mention", m.channelId⟩ : InteractionEdge))).filter
            (fun e => e.kind == "mention")
          = (mentionTargets m).filterMap (fun u =>
            if m.authorId == u.id then none
            else some (⟨m.serverId, m.authorId, u.id, "mention", m.channelId⟩ : InteractionEdge)) := by
        apply List.filter_eq_self.mpr
        intro e he
        rcases hA e he with ⟨_, hknd, _⟩
        simp [hknd]
      rw [hAfil]
      exact length_filterMap_skip (fun u => m.authorId == u.id)
        (fun u => (⟨m.serverId, m.authorId, u.id, "mention", m.channelId⟩ : InteractionEdge))
        (mentionTargets m)

/-- Witness for C5 on a message from alice mentioning a bot, herself,
and carol twice, and replying to dan: the edges are exactly two
mention edges to carol plus one reply edge to dan. -/
theorem mention_edge_filters_witness :
    ((∀ e ∈ interactionEdges ⟨false, true, "srv", "ch", "alice",
        [⟨"bot1", true⟩, ⟨"alice", false⟩, ⟨"carol", false⟩, ⟨"carol", false⟩],
        true, some ⟨"dan", false⟩⟩, e.sourceId ≠ e.targetId) ∧
      (∀ e ∈ interactionEdges ⟨false, true, "srv", "ch", "alice",
        [⟨"bot1", true⟩, ⟨"alice", false⟩, ⟨"carol", false⟩, ⟨"carol", false⟩],
        true, some ⟨"dan", false⟩⟩, e.kind = "mention" →
        ∃ u ∈ ([⟨"bot1", true⟩, ⟨"alice", false⟩, ⟨"carol", false⟩,
            ⟨"carol", false⟩] : List User), u.bot = false ∧ u.id = e.targetId) ∧
      ((interactionEdges ⟨false, true, "srv", "ch", "alice",
        [⟨"bot1", true⟩, ⟨"alice", false⟩, ⟨"carol", false⟩, ⟨"carol", false⟩],
        true, some ⟨"dan", false⟩⟩).filter (fun e => e.kind == "mention")).length
        = (if (false : Bool) || !(true : Bool) then 0
           else ((mentionTargets ⟨false, true, "srv", "ch", "alice",
              [⟨"bot1", true⟩, ⟨"alice", false⟩, ⟨"carol", false⟩, ⟨"carol", false⟩],
              true, some ⟨"dan", false⟩⟩).filter
                (fun u => !(("alice" : String) == u.id))).length)) ∧
    interactionEdges ⟨false, true, "srv", "ch", "alice",
        [⟨"bot1", true⟩, ⟨"alice", false⟩, ⟨"carol", false⟩, ⟨"carol", false⟩],
        true, some ⟨"dan", false⟩⟩
      = [⟨"srv", "alice", "carol", "mention", "ch"⟩,
         ⟨"srv", "alice", "carol", "mention", "ch"⟩,
         ⟨"srv", "alice", "dan", "reply", "ch"⟩] :=
  ⟨mention_edge_filters ⟨false, true, "srv", "ch", "alice",
      [⟨"bot1", true⟩, ⟨"alice", false⟩, ⟨"carol", false⟩, ⟨"carol", false⟩],
      true, some ⟨"dan", false⟩⟩, by decide⟩

/-- Counterexample for C6 as stated: a member-joined event from a bot
account is not dropped; the handler still issues its two Sink calls. -/
theorem memberAdd_bot_cex :
    memberAddTrace ⟨true, "s", "m", "somebot"⟩ ≠ [] := by
  decide

/-- Claim C6 (amended): message-created and voice-state events from
bot accounts are dropped before any Sink call or table effect, but
member-joined and member-left events are processed with no bot
filter. -/
theorem bot_filter_coverage (m : Message) (o : Nat → Outcome) (table : VTable)
    (vev : VoiceEvent) (t1 t2 : Nat) (mev : MemberEvent) :
    (m.authorBot = true → messageSinkTrace m o = []) ∧
    (vev.isBot = true → handleVoice table vev t1 t2 = ([], table)) ∧
    memberAddTrace mev ≠ [] ∧ memberRemoveTrace mev ≠ [] := by
  refine ⟨fun h => ?_, fun h => ?_, by simp [memberAddTrace], by simp [memberRemoveTrace]⟩
  · simp [messageSinkTrace, h]
  · rcases vev with ⟨hm, hb, sid, mid, oldc, newc⟩
    simp only at h
    subst h
    simp [handleVoice]

/-- Witness for C6 at a concrete bot message, bot voice event and bot
member event. -/
theorem bot_filter_coverage_witness :
    (((⟨true, true, "srv", "ch", "alice", [], false, none⟩ : Message).authorBot = true →
      messageSinkTrace ⟨true, true, "srv", "ch", "alice", [], false, none⟩
        (fun _ => ⟨false, false⟩) = []) ∧
    ((⟨true, true, "s", "m", none, some ⟨"a", "A"⟩⟩ : VoiceEvent).isBot = true →
      handleVoice [] ⟨true, true, "s", "m", none, some ⟨"a", "A"⟩⟩ 1 2 = ([], [])) ∧
    memberAddTrace ⟨true, "s", "m", "somebot"⟩ ≠ [] ∧
    memberRemoveTrace ⟨true, "s", "m", "somebot"⟩ ≠ []) :=
  bot_filter_coverage ⟨true, true, "srv", "ch", "alice", [], false, none⟩
    (fun _ => ⟨false, false⟩) [] ⟨true, true, "s", "m", none, some ⟨"a", "A"⟩⟩ 1 2
    ⟨true, "s", "m", "somebot"⟩

/-- Interaction attempts distribute over concatenated call lists. -/
theorem iAtt_append (a b : List SinkCall) :
    interactionAttempts (a ++ b)
      = interactionAttempts a ++ interactionAttempts b := by
  simp [interactionAttempts]

/-- The message-count fact produces no interaction attempt, for every
Sink outcome. -/
theorem iAtt_msgFactCalls (o : Nat → Outcome) :
    interactionAttempts (msgFactCalls o).1 = [] := by
  unfold msgFactCalls
  by_cases h0 : (o 0).errFn = true
  · by_cases h1 : (o 1).found = true <;> simp [h0, h1, interactionAttempts]
  · simp [h0, interactionAttempts]

/-- The member-upsert fact produces no interaction attempt, for every
Sink outcome. -/
theorem iAtt_memberFactCalls (o : Nat → Outcome) (i : Nat) :
    interactionAttempts (memberFactCalls o i).1 = [] := by
  unfold memberFactCalls
  by_cases h : (o i).found = true <;> simp [h, interactionAttempts]

/-- A `saveInteraction` attempts exactly its own fact, unless source
equals target, for every Sink outcome. -/
theorem iAtt_saveInteractionCalls (o : Nat → Outcome) (i : Nat)
    (src tgt kind : String) :
    interactionAttempts (saveInteractionCalls o i src tgt kind).1
      = if src == tgt then [] else [FactTag.interaction tgt kind] := by
  unfold saveInteractionCalls
  by_cases h : (src == tgt) = true
  · simp [h, interactionAttempts]
  · by_cases h2 : (o i).found = true <;> simp [h, h2, interactionAttempts]

/-- The mention loop attempts exactly one fact per non-self mention,
independent of the Sink outcomes and of the starting call index. -/
theorem iAtt_mentionCalls (o : Nat → Outcome) (src : String) :
    ∀ (L : List User) (i : Nat),
      interactionAttempts (mentionCalls o src L i).1
        = L.filterMap (fun u =>
            if src == u.id then none
            else some (FactTag.interaction u.id "mention")) := by
  intro L
  induction L with
  | nil => intro i; simp [mentionCalls, interactionAttempts]
  | cons u rest ih =>
      intro i
      simp only [mentionCalls]
      rw [iAtt_append, iAtt_saveInteractionCalls, ih, List.filterMap_cons]
      by_cases h : (src == u.id) = true
      · simp [h]
      · simp [h]

/-- The reply block attempts exactly the reply fact allowed by its
guard, independent of the Sink outcomes. -/
theorem iAtt_replyCalls (o : Nat → Outcome) (i : Nat) (m : Message) :
    interactionAttempts (replyCalls o i m).1
      = (if m.hasReplyRef then
          match m.repliedUser with
          | some ru =>
              if !ru.bot && !(ru.id == m.authorId) then
                [FactTag.interaction ru.id "reply"]
              else []
          | none => []
         else []) := by
  unfold replyCalls
  by_cases hrr : m.hasReplyRef = true
  · rw [if_pos hrr, if_pos hrr]
    cases m.repliedUser with
    | none => simp [interactionAttempts]
    | some ru =>
        dsimp only
        by_cases hgd : (!ru.bot && !(ru.id == m.authorId)) = true
        · rw [if_pos hgd, if_pos hgd, iAtt_saveInteractionCalls]
          have h1 : (ru.id == m.authorId) = false := by
            rcases (Bool.and_eq_true _ _).mp hgd with ⟨_, h2⟩
            simpa using h2
          have hne : ru.id ≠ m.authorId := by simpa using h1
          have h2 : (m.authorId == ru.id) = false := by
            simp only [beq_eq_false_iff_ne]
            exact Ne.symm hne
          simp [h2]
        · rw [if_neg hgd, if_neg hgd]
          simp [interactionAttempts]
  · rw [if_neg hrr, if_neg hrr]
    simp [interactionAttempts]

/-- Claim C9: for every message event and every assignment of Sink
outcomes (including failures), the interaction facts attempted by the
handler's call trace are exactly the edges of the message - a failed
call never prevents the later facts of the same event from being
attempted, and each is attempted exactly once (no retry). -/
theorem sink_failure_no_skip (m : Message) (o : Nat → Outcome) :
    interactionAttempts (messageSinkTrace m o)
      = (interactionEdges m).map (fun e => FactTag.interaction e.targetId e.kind) := by
  by_cases hbg : (m.authorBot || !m.inGuild) = true
  · simp [messageSinkTrace, interactionEdges, hbg, interactionAttempts]
  · unfold messageSinkTrace interactionEdges
    rw [if_neg hbg, if_neg hbg]
    rw [iAtt_append, iAtt_append, iAtt_append]
    rw [iAtt_msgFactCalls, iAtt_memberFactCalls, iAtt_mentionCalls, iAtt_replyCalls]
    simp only [List.nil_append, List.map_append]
    congr 1
    · rw [List.map_filterMap]
      congr 1
      funext u
      by_cases h : (m.authorId == u.id) = true
      · simp [h]
      · simp [h]
    · by_cases hrr : m.hasReplyRef = true
      · rw [if_pos hrr, if_pos hrr]
        cases m.repliedUser with
        | none => simp
        | some ru =>
            dsimp only
            by_cases hgd : (!ru.bot && !(ru.id == m.authorId)) = true
            · rw [if_pos hgd, if_pos hgd]
              simp
            · rw [if_neg hgd, if_neg hgd]
              simp
      · rw [if_neg hrr, if_neg hrr]
        simp
